import Mathlib

/-!
Verification development for the AI story-branching generator.

The definitions below are a shallow embedding of the repository's core:
* `models/models.py` — the document data model (`StoryBranch`, `Node`,
  `Choice`, `Character`, `ChatMessage`) and the closed enumerations
  `BackgroundType` / `CharacterType`;
* `ai_agents/conversation_enhancer.py` — `ConversationEnhancer.enhance_conversations`;
* `ai_agents/story_branch_generator.py` — `StoryBranchGenerator.create_story_branch_from_text`;
* `utils/utils.py` — the extension-stripping step of `get_filename_from_url`.

External capabilities (the OpenAI model calls made through `Runner.run`,
and the stdlib `json.loads` decode of the model's textual output) are
passed in as oracle functions; file writes are recorded as trace events.
Python's in-place mutation of node objects is modelled by explicit state
passing over the list of nodes, with a node's object identity represented
by its (stable) position in the list.
-/

namespace StoryBranching

/-- A decoded JSON value, the result of a successful `json.loads` on the
enhancer model's textual output.  Objects keep their key order (as Python
`dict`s preserve insertion order). -/
inductive Json where
  | null : Json
  | bool : Bool → Json
  | num : Int → Json
  | str : String → Json
  | arr : List Json → Json
  | obj : List (String × Json) → Json

mutual

/-- Structural (Python `==`) equality test for decoded JSON values. -/
def Json.decEq : (a b : Json) → Decidable (a = b)
  | .null, .null => isTrue rfl
  | .bool a, .bool b =>
    if h : a = b then isTrue (by rw [h])
    else isFalse (fun hh => h (Json.bool.inj hh))
  | .num a, .num b =>
    if h : a = b then isTrue (by rw [h])
    else isFalse (fun hh => h (Json.num.inj hh))
  | .str a, .str b =>
    if h : a = b then isTrue (by rw [h])
    else isFalse (fun hh => h (Json.str.inj hh))
  | .arr a, .arr b =>
    match Json.listDecEq a b with
    | isTrue h => isTrue (by rw [h])
    | isFalse h => isFalse (fun hh => h (Json.arr.inj hh))
  | .obj a, .obj b =>
    match Json.objDecEq a b with
    | isTrue h => isTrue (by rw [h])
    | isFalse h => isFalse (fun hh => h (Json.obj.inj hh))
  | .null, .bool _ | .null, .num _ | .null, .str _ | .null, .arr _ | .null, .obj _
  | .bool _, .null | .bool _, .num _ | .bool _, .str _ | .bool _, .arr _ | .bool _, .obj _
  | .num _, .null | .num _, .bool _ | .num _, .str _ | .num _, .arr _ | .num _, .obj _
  | .str _, .null | .str _, .bool _ | .str _, .num _ | .str _, .arr _ | .str _, .obj _
  | .arr _, .null | .arr _, .bool _ | .arr _, .num _ | .arr _, .str _ | .arr _, .obj _
  | .obj _, .null | .obj _, .bool _ | .obj _, .num _ | .obj _, .str _ | .obj _, .arr _ =>
    isFalse (by intro h; exact Json.noConfusion h)

def Json.listDecEq : (a b : List Json) → Decidable (a = b)
  | [], [] => isTrue rfl
  | [], _ :: _ => isFalse (by intro h; exact List.noConfusion h)
  | _ :: _, [] => isFalse (by intro h; exact List.noConfusion h)
  | x :: xs, y :: ys =>
    match Json.decEq x y with
    | isFalse h => isFalse (fun hh => h (List.cons.inj hh).1)
    | isTrue h1 =>
      match Json.listDecEq xs ys with
      | isTrue h2 => isTrue (by rw [h1, h2])
      | isFalse h => isFalse (fun hh => h (List.cons.inj hh).2)

def Json.objDecEq : (a b : List (String × Json)) → Decidable (a = b)
  | [], [] => isTrue rfl
  | [], _ :: _ => isFalse (by intro h; exact List.noConfusion h)
  | _ :: _, [] => isFalse (by intro h; exact List.noConfusion h)
  | (k, v) :: xs, (l, w) :: ys =>
    if hk : k = l then
      match Json.decEq v w with
      | isFalse h => isFalse (fun hh => h (congrArg Prod.snd (List.cons.inj hh).1))
      | isTrue hv =>
        match Json.objDecEq xs ys with
        | isTrue h2 => isTrue (by rw [hk, hv, h2])
        | isFalse h => isFalse (fun hh => h (List.cons.inj hh).2)
    else isFalse (fun hh => hk (congrArg Prod.fst (List.cons.inj hh).1))

end

instance : DecidableEq Json := Json.decEq

/-- `Choice` from `models/models.py` (lines 16-20); `score` defaults to 0. -/
structure Choice where
  text : String
  outcome : String
  impact : String
  score : Int := 0
  deriving DecidableEq

/-- `Character` from `models/models.py` (lines 22-23). -/
structure Character where
  type : String
  deriving DecidableEq

/-- `ChatMessage` from `models/models.py` (lines 25-27). -/
structure ChatMessage where
  who : Int
  text : String
  deriving DecidableEq

/-- The value held by a node's `chat` field.  Generation produces validated
`ChatMessage` objects; the enhancer's assignment
`story_branch.nodes[node_index].chat = enhanced_chat`
(conversation_enhancer.py line 161) stores the raw `json.loads` result
without pydantic validation (`validate_assignment` is not enabled), so the
field can also hold an arbitrary decoded JSON value — `main.py`
(lines 230-236) explicitly handles both shapes. -/
inductive ChatValue where
  | typed : List ChatMessage → ChatValue
  | rawJson : Json → ChatValue
  deriving DecidableEq

/-- `Node` from `models/models.py` (lines 29-39). -/
structure Node where
  situation : String
  reasoning : String
  background : Option String := none
  character1 : Option Character := none
  character2 : Option Character := none
  chat : Option ChatValue := none
  choices : List Choice
  deriving DecidableEq

/-- `StoryBranch` from `models/models.py` (lines 41-46). -/
structure StoryBranch where
  disease : String
  nodes : List Node
  deriving DecidableEq

/-- `BackgroundType` literal values (`models/models.py` lines 5-8),
as obtained by `get_args(BackgroundType)`. -/
def validBackgrounds : List String :=
  ["bagno", "camera", "citta", "cucina", "ufficio", "parco", "palestra", "sala"]

/-- `CharacterType` literal values (`models/models.py` lines 11-14),
as obtained by `get_args(CharacterType)`. -/
def validCharacter2Types : List String :=
  ["amico", "amica", "collega", "nipote", "familiare", "conoscente", "paziente"]

/-- Default node used with `List.getD` (out-of-range reads never occur in
the modelled control flow). -/
def dNode : Node := { situation := "", reasoning := "", choices := [] }

/-- `node.character2 is not None` — the selection predicate of
`conversation_enhancer.py` line 42. -/
def hasCharacter2 (n : Node) : Bool := n.character2.isSome

/-- `conversation_enhancer.py` lines 42-48: filter the nodes that have a
`character2`, then cut the list to 3 when more were found. -/
def dialogueNodes (sb : StoryBranch) : List Node :=
  let dn := sb.nodes.filter hasCharacter2
  if dn.length > 3 then dn.take 3 else dn

/-- Positions (in `story_branch.nodes`) of the nodes with a `character2`,
counting from start index `s`.  A position stands for the object identity
of the node reference that the Python list comprehension captures. -/
def charIdxs : List Node → Nat → List Nat
  | [], _ => []
  | n :: rest, s =>
    if hasCharacter2 n then s :: charIdxs rest (s + 1) else charIdxs rest (s + 1)

/-- Positions of the up-to-3 nodes selected for enhancement
(`conversation_enhancer.py` lines 42-48). -/
def candidateIdxs (ns : List Node) : List Nat := (charIdxs ns 0).take 3

/-- Python truthiness of the optional `node.background` string:
`not node.background` is true for `None` and for the empty string. -/
def pyTruthyBackground : Option String → Bool
  | none => false
  | some s => !(s == "")

/-- `node.background in self.valid_backgrounds` (`None` is never a member). -/
def backgroundInEnum : Option String → Bool
  | none => false
  | some s => validBackgrounds.contains s

/-- `conversation_enhancer.py` lines 57-59:
`if not node.background or node.background not in self.valid_backgrounds:
node.background = "sala"`. -/
def normalizeBackground (b : Option String) : Option String :=
  if !pyTruthyBackground b || !backgroundInEnum b then some "sala" else b

/-- `conversation_enhancer.py` lines 64-67: when `node.character2` is truthy
(a pydantic model always is, and `hasattr(node.character2, 'type')` always
holds for `Character`), an out-of-enumeration `type` is replaced with
`"familiare"`. -/
def normalizeCharacter2 : Option Character → Option Character
  | none => none
  | some c =>
    if !validCharacter2Types.contains c.type then some { c with type := "familiare" }
    else some c

/-- The validation step that the enhancer applies in place to a selected
node (`conversation_enhancer.py` lines 56-69). -/
def normalizeNode (n : Node) : Node :=
  { n with
      background := normalizeBackground n.background,
      character2 := normalizeCharacter2 n.character2 }

/-- `story_branch.nodes[node_index].chat = enhanced_chat`
(`conversation_enhancer.py` line 161): the raw decoded JSON value is stored
without validation. -/
def setChat (n : Node) (jv : Json) : Node :=
  { n with chat := some (ChatValue.rawJson jv) }

/-- Whether Python's `len()` succeeds on a `json.loads` result: decoded
JSON arrays (`list`), objects (`dict`) and strings (`str`) have a length;
numbers, booleans and `None` raise `TypeError`. -/
def pyHasLen : Json → Bool
  | .arr _ => true
  | .obj _ => true
  | .str _ => true
  | _ => false

/-- One iteration of the enhancement loop (`conversation_enhancer.py`
lines 51-167) acting on the node at position `i`:
1. `node_index = story_branch.nodes.index(node)` (line 53) — the position of
   the *first* node that compares `==` to the loop's node, looked up before
   any mutation of this iteration;
2. validate `background` / `character2.type` in place (lines 56-69);
3. run the enhancer model and `json.loads` its output (lines 151-157),
   modelled by `decoded` (`none` = `json.loads` raised);
4. still inside the `try`, the success log's f-string evaluates
   `len(enhanced_chat)` (line 158) *before* the assignment, so a decoded
   value with no `len()` (a JSON number, boolean or null) raises
   `TypeError` there, is caught by the `except` at line 163, and is never
   stored;
5. otherwise store the raw decoded value into
   `story_branch.nodes[node_index].chat` (line 161); on any caught failure,
   log and leave the nodes untouched (lines 163-167). -/
def enhanceStep (decoded : Option Json) (ns : List Node) (i : Nat) : List Node :=
  let v := ns.getD i dNode
  let nodeIndex := ns.findIdx (fun n => decide (n = v))
  let ns1 := ns.set i (normalizeNode v)
  match decoded with
  | none => ns1
  | some jv =>
    if pyHasLen jv then ns1.set nodeIndex (setChat (ns1.getD nodeIndex dNode) jv)
    else ns1

/-- The `for i, node in enumerate(dialogue_nodes)` loop
(`conversation_enhancer.py` line 51): one model call per selected node, in
document order.  Returns the final node list and the number of model calls
made. -/
def enhanceLoop (oracle : Nat → Option Json) : List Nat → Nat → List Node → List Node × Nat
  | [], _, ns => (ns, 0)
  | i :: rest, k, ns =>
    let out := enhanceLoop oracle rest (k + 1) (enhanceStep (oracle k) ns i)
    (out.1, out.2 + 1)

/-- Outcome of `enhance_conversations`: the returned story branch, the
number of enhancer-model calls made, and the JSON documents written to the
output path (`conversation_enhancer.py` lines 169-175 always write exactly
the final document). -/
structure EnhanceResult where
  branch : StoryBranch
  modelCalls : Nat
  written : List StoryBranch

/-- `ConversationEnhancer.enhance_conversations`
(`conversation_enhancer.py` lines 28-175).  `oracle k` is the decoded JSON
outcome of the `k`-th enhancer model call (`none` when `json.loads` raises
on the model output). -/
def enhance_conversations (oracle : Nat → Option Json) (sb : StoryBranch) : EnhanceResult :=
  let idxs := candidateIdxs sb.nodes
  let r := enhanceLoop oracle idxs 0 sb.nodes
  let final : StoryBranch := { sb with nodes := r.1 }
  { branch := final, modelCalls := r.2, written := [final] }

/-- Python `str.replace(pat, rep)` on character lists (all non-overlapping
occurrences, scanned left to right), for a non-empty pattern.  The fuel
argument is instantiated with the input length, which bounds the number of
steps, so the `0` case is never reached on the intended calls. -/
def replaceFuel (pat rep : List Char) : Nat → List Char → List Char
  | 0, l => l
  | _ + 1, [] => []
  | fuel + 1, c :: cs =>
    if !pat.isEmpty && pat.isPrefixOf (c :: cs) then
      rep ++ replaceFuel pat rep fuel (cs.drop (pat.length - 1))
    else
      c :: replaceFuel pat rep fuel cs

/-- Python `s.replace(pat, rep)` for a non-empty `pat`, as used by
`filename.replace('.pdf', '')` in `story_branch_generator.py` line 41. -/
def pyReplace (s pat rep : String) : String :=
  ⟨replaceFuel pat.toList rep.toList s.toList.length s.toList⟩

/-- Index of the last `'.'` in a character list, if any. -/
def lastDotIdx (cs : List Char) : Option Nat :=
  match cs.reverse.findIdx? (fun c => c == '.') with
  | none => none
  | some r => some (cs.length - 1 - r)

/-- `os.path.splitext(s)[0]` for a plain file name (no directory
separators), as used by `get_filename_from_url` (`utils/utils.py`
line 138): split at the last dot, unless every character before it is a
dot (so `".bashrc"`-style names keep their dot). -/
def splitextStem (s : String) : String :=
  let cs := s.toList
  match lastDotIdx cs with
  | none => s
  | some d => if (cs.take d).any (fun c => c != '.') then ⟨cs.take d⟩ else s

/-- The identifying data of an `Agent(...)` built by the pipeline: its
`name` and `model` arguments.  The long Italian `instructions` strings and
the prompt texts are opaque model-request content; the data they interpolate
(disease, language, node count, summary) is passed to the call oracles
explicitly. -/
structure AgentConfig where
  name : String
  model : String
  deriving DecidableEq

/-- The `text formatter` agent (`story_branch_generator.py` lines 47-61):
built with `model=self.model`. -/
def textFormatterAgent (model : String) : AgentConfig :=
  { name := "text formatter", model := model }

/-- The `story branch generator` agent (`story_branch_generator.py`
lines 74-127): built with the hard-coded `model="gpt-4.1"` (line 125),
independent of the `model` the class was configured with. -/
def storyGeneratorAgent : AgentConfig :=
  { name := "story branch generator", model := "gpt-4.1" }

/-- The `conversation enhancer` agent (`conversation_enhancer.py`
lines 73-107): built with `model=self.model`. -/
def conversationEnhancerAgent (model : String) : AgentConfig :=
  { name := "conversation enhancer", model := model }

/-- Outcome of one `Runner.run` stage: a value, or a raised fault
(model/transport error, or schema-coercion error for structured output). -/
inductive StageResult (α : Type) where
  | ok : α → StageResult α
  | err : String → StageResult α

/-- `StoryBranchGenerator.create_story_branch_from_text`
(`story_branch_generator.py` lines 27-158).

* `runFormatter cfg disease language text` — `Runner.run(text_cleaner, text)`
  (line 64); `cfg` is the agent built for it, `disease`/`language` are the
  data interpolated into its instructions.
* `runGenerator cfg n disease summary` — `Runner.run(story_generator, prompt)`
  plus `final_output_as(StoryBranch)` (lines 141-151); `n` is `how_many_nodes`
  (interpolated into the instructions), `summary` the formatter output
  (interpolated into the prompt).  An `ok` value is exactly a
  schema-validated `StoryBranch`.

The whole body sits inside `try/except Exception` (lines 39, 153-158): a
fault in either stage is logged and turned into the return `(None, None)`.
The summary write between the stages goes through `save_text_to_file`,
which swallows its own errors (`utils/utils.py` lines 50-63), so it cannot
raise.  The function also returns the list of agents it built, in order. -/
def create_story_branch_from_text
    (runFormatter : AgentConfig → String → String → String → StageResult String)
    (runGenerator : AgentConfig → Nat → String → String → StageResult StoryBranch)
    (model text filename disease : String) (language : String)
    (how_many_nodes : Nat) :
    (Option StoryBranch × Option String) × List AgentConfig :=
  let base_filename := pyReplace filename ".pdf" ""
  let text_cleaner := textFormatterAgent model
  match runFormatter text_cleaner disease language text with
  | .err _ => ((none, none), [text_cleaner])
  | .ok summary =>
    match runGenerator storyGeneratorAgent how_many_nodes disease summary with
    | .err _ => ((none, none), [text_cleaner, storyGeneratorAgent])
    | .ok sb =>
      ((some { sb with disease := disease }, some base_filename),
       [text_cleaner, storyGeneratorAgent])

/-! ### Helper lemmas on lists -/

theorem getD_set_self {α : Type} (l : List α) (i : Nat) (a d : α) (h : i < l.length) :
    (l.set i a).getD i d = a := by
  induction l generalizing i with
  | nil => simp at h
  | cons x xs ih =>
    cases i with
    | zero => rfl
    | succ n =>
      simp only [List.set, List.getD_cons_succ]
      exact ih n (by simpa using h)

theorem getD_set_ne {α : Type} (l : List α) (i j : Nat) (a d : α) (h : i ≠ j) :
    (l.set i a).getD j d = l.getD j d := by
  induction l generalizing i j with
  | nil => rfl
  | cons x xs ih =>
    cases i with
    | zero =>
      cases j with
      | zero => exact absurd rfl h
      | succ m => rfl
    | succ n =>
      cases j with
      | zero => rfl
      | succ m =>
        simp only [List.set, List.getD_cons_succ]
        exact ih n m (fun hh => h (by rw [hh]))

theorem findIdx_le_of_getD {α : Type} (p : α → Bool) (l : List α) (i : Nat) (d : α)
    (hi : i < l.length) (hp : p (l.getD i d) = true) : l.findIdx p ≤ i := by
  induction l generalizing i with
  | nil => simp at hi
  | cons x xs ih =>
    rw [List.findIdx_cons]
    cases i with
    | zero =>
      rw [List.getD_cons_zero] at hp
      simp [hp]
    | succ n =>
      cases hx : p x with
      | true => simp
      | false =>
        simp only [hx, cond_false]
        have := ih n (by simpa using hi) (by simpa using hp)
        omega

theorem findIdx_getD {α : Type} (p : α → Bool) (l : List α) (d : α)
    (h : l.findIdx p < l.length) : p (l.getD (l.findIdx p) d) = true := by
  induction l with
  | nil => simp at h
  | cons x xs ih =>
    rw [List.findIdx_cons] at h ⊢
    cases hx : p x with
    | true =>
      simpa [cond_true, List.getD_cons_zero] using hx
    | false =>
      rw [hx] at h
      simp only [cond_false] at h ⊢
      rw [List.getD_cons_succ]
      exact ih (by simpa using h)

/-! ### Lemmas about the candidate-position computation -/

theorem charIdxs_shift (ns : List Node) : ∀ s : Nat,
    charIdxs ns s = (charIdxs ns 0).map (· + s) := by
  induction ns with
  | nil => intro s; simp [charIdxs]
  | cons n rest ih =>
    intro s
    have hcons : ∀ t : Nat, charIdxs (n :: rest) t
        = if hasCharacter2 n = true then t :: charIdxs rest (t + 1)
          else charIdxs rest (t + 1) := fun t => rfl
    by_cases h : hasCharacter2 n = true
    · rw [hcons s, hcons 0, if_pos h, if_pos h, List.map_cons, ih (s + 1)]
      simp only [Nat.zero_add]
      rw [ih 1, List.map_map]
      refine congrArg (List.cons s) ?_
      apply List.map_congr_left
      intro a _
      simp only [Function.comp_apply]
      omega
    · rw [hcons s, hcons 0, if_neg h, if_neg h, ih (s + 1)]
      simp only [Nat.zero_add]
      rw [ih 1, List.map_map]
      apply List.map_congr_left
      intro a _
      simp only [Function.comp_apply]
      omega

theorem mem_charIdxs (ns : List Node) (j : Nat) :
    j ∈ charIdxs ns 0 ↔ j < ns.length ∧ hasCharacter2 (ns.getD j dNode) = true := by
  induction ns generalizing j with
  | nil => simp [charIdxs]
  | cons n rest ih =>
    have hshift : charIdxs rest 1 = (charIdxs rest 0).map (· + 1) := charIdxs_shift rest 1
    have hcons : charIdxs (n :: rest) 0
        = if hasCharacter2 n = true then 0 :: charIdxs rest 1 else charIdxs rest 1 := rfl
    cases j with
    | zero =>
      rw [hcons]
      constructor
      · intro hmem
        refine ⟨by simp, ?_⟩
        rw [List.getD_cons_zero]
        by_cases hc : hasCharacter2 n = true
        · exact hc
        · rw [if_neg hc, hshift] at hmem
          rcases List.mem_map.mp hmem with ⟨a, _, ha⟩
          omega
      · rintro ⟨-, hc⟩
        rw [List.getD_cons_zero] at hc
        rw [if_pos hc]
        exact List.mem_cons_self 0 _
    | succ m =>
      have hmm : m + 1 ∈ charIdxs (n :: rest) 0 ↔ m ∈ charIdxs rest 0 := by
        rw [hcons]
        by_cases hc : hasCharacter2 n = true
        · rw [if_pos hc, hshift]
          constructor
          · intro hmem
            rcases List.mem_cons.mp hmem with h0 | hmem2
            · exact absurd h0 (Nat.succ_ne_zero m)
            · rcases List.mem_map.mp hmem2 with ⟨a, ha, haa⟩
              have haeq : a = m := by omega
              exact haeq ▸ ha
          · intro hmem
            exact List.mem_cons.mpr (Or.inr (List.mem_map.mpr ⟨m, hmem, rfl⟩))
        · rw [if_neg hc, hshift]
          constructor
          · intro hmem
            rcases List.mem_map.mp hmem with ⟨a, ha, haa⟩
            have haeq : a = m := by omega
            exact haeq ▸ ha
          · intro hmem
            exact List.mem_map.mpr ⟨m, hmem, rfl⟩
      rw [hmm, ih m]
      simp [List.getD_cons_succ, Nat.succ_lt_succ_iff]

theorem le_of_mem_charIdxs (ns : List Node) : ∀ (s j : Nat), j ∈ charIdxs ns s → s ≤ j := by
  induction ns with
  | nil => intro s j h; simp [charIdxs] at h
  | cons n rest ih =>
    intro s j h
    have hcons : charIdxs (n :: rest) s
        = if hasCharacter2 n = true then s :: charIdxs rest (s + 1)
          else charIdxs rest (s + 1) := rfl
    rw [hcons] at h
    by_cases hc : hasCharacter2 n = true
    · rw [if_pos hc] at h
      rcases List.mem_cons.mp h with h | h
      · omega
      · have := ih (s + 1) j h; omega
    · rw [if_neg hc] at h
      have := ih (s + 1) j h; omega

theorem charIdxs_sorted (ns : List Node) : ∀ s : Nat,
    List.Pairwise (· < ·) (charIdxs ns s) := by
  induction ns with
  | nil => intro s; simp [charIdxs]
  | cons n rest ih =>
    intro s
    have hcons : charIdxs (n :: rest) s
        = if hasCharacter2 n = true then s :: charIdxs rest (s + 1)
          else charIdxs rest (s + 1) := rfl
    rw [hcons]
    by_cases hc : hasCharacter2 n = true
    · rw [if_pos hc]
      refine List.pairwise_cons.mpr ⟨?_, ih (s + 1)⟩
      intro j hj
      have := le_of_mem_charIdxs rest (s + 1) j hj
      omega
    · rw [if_neg hc]
      exact ih (s + 1)

/-- In the sorted position list, anything at most a selected position that
has a `character2` is itself selected: the candidate set is closed
downwards among `character2`-bearing positions. -/
theorem mem_candidateIdxs_of_le (ns : List Node) (i j : Nat)
    (hi : i ∈ candidateIdxs ns) (hj : j ∈ charIdxs ns 0) (hle : j ≤ i) :
    j ∈ candidateIdxs ns := by
  by_contra hnot
  have hsorted : List.Pairwise (· < ·) (charIdxs ns 0) := charIdxs_sorted ns 0
  have hsplit : (charIdxs ns 0).take 3 ++ (charIdxs ns 0).drop 3 = charIdxs ns 0 :=
    List.take_append_drop 3 (charIdxs ns 0)
  have hpw : List.Pairwise (· < ·) ((charIdxs ns 0).take 3 ++ (charIdxs ns 0).drop 3) := by
    rw [hsplit]; exact hsorted
  have hcross := (List.pairwise_append.mp hpw).2.2
  have hjdrop : j ∈ (charIdxs ns 0).drop 3 := by
    have hj2 := hj
    rw [← hsplit] at hj2
    rcases List.mem_append.mp hj2 with h | h
    · exact absurd h hnot
    · exact h
  have hii : i ∈ (charIdxs ns 0).take 3 := hi
  have : i < j := hcross i hii j hjdrop
  omega

theorem map_getD_charIdxs (ns : List Node) :
    (charIdxs ns 0).map (fun i => ns.getD i dNode) = ns.filter hasCharacter2 := by
  induction ns with
  | nil => simp [charIdxs]
  | cons n rest ih =>
    have hshift : charIdxs rest 1 = (charIdxs rest 0).map (· + 1) := charIdxs_shift rest 1
    have htail : ((charIdxs rest 0).map (· + 1)).map (fun i => (n :: rest).getD i dNode)
        = rest.filter hasCharacter2 := by
      rw [List.map_map]
      calc (charIdxs rest 0).map ((fun i => (n :: rest).getD i dNode) ∘ (· + 1))
          = (charIdxs rest 0).map (fun i => rest.getD i dNode) := by
            apply List.map_congr_left
            intro a _
            simp [Function.comp_apply, List.getD_cons_succ]
        _ = rest.filter hasCharacter2 := ih
    have hcons : charIdxs (n :: rest) 0
        = if hasCharacter2 n = true then 0 :: charIdxs rest 1 else charIdxs rest 1 := rfl
    by_cases h : hasCharacter2 n = true
    · rw [hcons, if_pos h, hshift, List.map_cons, htail, List.filter_cons, if_pos h,
        List.getD_cons_zero]
    · rw [hcons, if_neg h, hshift, htail, List.filter_cons, if_neg h]

/-! ### Preservation lemmas for the per-node operations -/

theorem normalizeNode_chat (n : Node) : (normalizeNode n).chat = n.chat := rfl

theorem normalizeCharacter2_isSome (c : Option Character) :
    (normalizeCharacter2 c).isSome = c.isSome := by
  cases c with
  | none => rfl
  | some ch =>
    simp only [normalizeCharacter2]
    split <;> rfl

theorem normalizeNode_hasCharacter2 (n : Node) :
    hasCharacter2 (normalizeNode n) = hasCharacter2 n :=
  normalizeCharacter2_isSome n.character2

theorem setChat_hasCharacter2 (n : Node) (jv : Json) :
    hasCharacter2 (setChat n jv) = hasCharacter2 n := rfl

/-- Unfolding `enhanceStep` when `json.loads` raised. -/
theorem enhanceStep_none (ns : List Node) (i : Nat) :
    enhanceStep none ns i = ns.set i (normalizeNode (ns.getD i dNode)) := rfl

/-- Unfolding `enhanceStep` when the decoded value has no `len()`: the
`TypeError` in the success log joins the parse-failure path, so nothing
is stored. -/
theorem enhanceStep_some_noLen (jv : Json) (hl : pyHasLen jv = false)
    (ns : List Node) (i : Nat) :
    enhanceStep (some jv) ns i = ns.set i (normalizeNode (ns.getD i dNode)) := by
  unfold enhanceStep
  dsimp only
  rw [if_neg (by simp [hl])]

/-- Unfolding `enhanceStep` when the decoded value has a `len()`: the raw
value is stored at the `list.index`-selected position. -/
theorem enhanceStep_some_len (jv : Json) (hl : pyHasLen jv = true)
    (ns : List Node) (i : Nat) :
    enhanceStep (some jv) ns i
      = (ns.set i (normalizeNode (ns.getD i dNode))).set
          (ns.findIdx (fun n => decide (n = ns.getD i dNode)))
          (setChat ((ns.set i (normalizeNode (ns.getD i dNode))).getD
            (ns.findIdx (fun n => decide (n = ns.getD i dNode))) dNode) jv) := by
  unfold enhanceStep
  dsimp only
  rw [if_pos hl]

/-! ### The frame invariant of the enhancement loop -/

/-- Loop invariant of the enhancement pass relative to the original node
list `ns0`: the length is preserved, every position outside the candidate
set still holds its original node, and which positions bear a `character2`
never changes. -/
def EnhanceInv (ns0 ns : List Node) : Prop :=
  ns.length = ns0.length ∧
  (∀ j, j ∉ candidateIdxs ns0 → ns.getD j dNode = ns0.getD j dNode) ∧
  (∀ j, hasCharacter2 (ns.getD j dNode) = hasCharacter2 (ns0.getD j dNode))

theorem enhanceInv_set (ns0 ns : List Node) (hinv : EnhanceInv ns0 ns) (k : Nat)
    (hk : k ∈ candidateIdxs ns0) (hklen : k < ns.length) (x : Node)
    (hx : hasCharacter2 x = hasCharacter2 (ns.getD k dNode)) :
    EnhanceInv ns0 (ns.set k x) := by
  obtain ⟨hlen, hout, hchar⟩ := hinv
  refine ⟨by rw [List.length_set]; exact hlen, ?_, ?_⟩
  · intro j hj
    have hne : k ≠ j := fun hh => hj (hh ▸ hk)
    rw [getD_set_ne ns k j x dNode hne]
    exact hout j hj
  · intro j
    by_cases hjk : k = j
    · subst hjk
      rw [getD_set_self ns k x dNode hklen, hx]
      exact hchar k
    · rw [getD_set_ne ns k j x dNode hjk]
      exact hchar j

/-- One enhancement iteration at a candidate position preserves the frame
invariant.  Crucially, the `list.index` lookup of line 53 can only land on
a candidate position: the first node comparing equal to the current one is
at most the current position and bears a `character2`, hence is itself
among the first three `character2`-bearing positions. -/
theorem enhanceStep_inv (ns0 ns : List Node) (o : Option Json) (i : Nat)
    (hi : i ∈ candidateIdxs ns0) (hinv : EnhanceInv ns0 ns) :
    EnhanceInv ns0 (enhanceStep o ns i) := by
  have hi0 : i ∈ charIdxs ns0 0 := List.mem_of_mem_take hi
  have hi' := (mem_charIdxs ns0 i).mp hi0
  have hilt : i < ns.length := by rw [hinv.1]; exact hi'.1
  have hvchar : hasCharacter2 (ns.getD i dNode) = true := by
    rw [hinv.2.2 i]; exact hi'.2
  have hple : ns.findIdx (fun n => decide (n = ns.getD i dNode)) ≤ i :=
    findIdx_le_of_getD _ ns i dNode hilt (by simp)
  have hplt : ns.findIdx (fun n => decide (n = ns.getD i dNode)) < ns.length :=
    lt_of_le_of_lt hple hilt
  have hpval : ns.getD (ns.findIdx (fun n => decide (n = ns.getD i dNode))) dNode
      = ns.getD i dNode :=
    of_decide_eq_true (findIdx_getD _ ns dNode hplt)
  have hjC : ns.findIdx (fun n => decide (n = ns.getD i dNode)) ∈ candidateIdxs ns0 := by
    by_contra hnot
    have heq := hinv.2.1 _ hnot
    have hcj : hasCharacter2
        (ns0.getD (ns.findIdx (fun n => decide (n = ns.getD i dNode))) dNode) = true := by
      rw [← heq, hpval]; exact hvchar
    have hjlen0 : ns.findIdx (fun n => decide (n = ns.getD i dNode)) < ns0.length := by
      rw [← hinv.1]; exact hplt
    exact hnot (mem_candidateIdxs_of_le ns0 i _ hi
      ((mem_charIdxs ns0 _).mpr ⟨hjlen0, hcj⟩) hple)
  have hinv1 : EnhanceInv ns0 (ns.set i (normalizeNode (ns.getD i dNode))) :=
    enhanceInv_set ns0 ns hinv i hi hilt _ (normalizeNode_hasCharacter2 _)
  cases o with
  | none => exact hinv1
  | some jv =>
    cases hl : pyHasLen jv with
    | false =>
      rw [enhanceStep_some_noLen jv hl ns i]
      exact hinv1
    | true =>
      rw [enhanceStep_some_len jv hl ns i]
      refine enhanceInv_set ns0 _ hinv1 _ hjC ?_ _ rfl
      rw [List.length_set]
      exact hplt

theorem enhanceLoop_inv (ns0 : List Node) (oracle : Nat → Option Json) :
    ∀ (idxs : List Nat) (k : Nat) (ns : List Node),
    (∀ i ∈ idxs, i ∈ candidateIdxs ns0) → EnhanceInv ns0 ns →
    EnhanceInv ns0 (enhanceLoop oracle idxs k ns).1 := by
  intro idxs
  induction idxs with
  | nil => intro k ns _ hinv; exact hinv
  | cons i rest ih =>
    intro k ns hall hinv
    exact ih (k + 1) (enhanceStep (oracle k) ns i)
      (fun j hj => hall j (List.mem_cons.mpr (Or.inr hj)))
      (enhanceStep_inv ns0 ns (oracle k) i (hall i (List.mem_cons_self i rest)) hinv)

theorem enhanceLoop_calls (oracle : Nat → Option Json) :
    ∀ (idxs : List Nat) (k : Nat) (ns : List Node),
    (enhanceLoop oracle idxs k ns).2 = idxs.length := by
  intro idxs
  induction idxs with
  | nil => intro k ns; rfl
  | cons i rest ih =>
    intro k ns
    have := ih (k + 1) (enhanceStep (oracle k) ns i)
    simp only [enhanceLoop, this, List.length_cons]

/-! ### Selection lemmas -/

theorem dialogueNodes_eq_take (sb : StoryBranch) :
    dialogueNodes sb = (sb.nodes.filter hasCharacter2).take 3 := by
  simp only [dialogueNodes]
  by_cases h : (sb.nodes.filter hasCharacter2).length > 3
  · rw [if_pos h]
  · rw [if_neg h]
    exact (List.take_of_length_le (by omega)).symm

theorem map_getD_candidateIdxs (ns : List Node) :
    (candidateIdxs ns).map (fun i => ns.getD i dNode) = (ns.filter hasCharacter2).take 3 := by
  simp only [candidateIdxs]
  rw [List.map_take, map_getD_charIdxs]

/-! ### Concrete inputs used by witnesses and counterexamples -/

/-- A well-formed node with a `character2`, used as concrete input. -/
def nodeWithChar2 : Node :=
  { situation := "s", reasoning := "r", background := some "sala",
    character2 := some ({ type := "familiare" } : Character), choices := [] }

/-- A node without a `character2`, used as concrete input. -/
def nodeNoChar2 : Node := { situation := "s2", reasoning := "r2", choices := [] }

/-! ### Claims C1 and C2 -/

/-- **C1.** For every story branch document, the Dialogue Enricher's
candidate set is exactly the nodes whose `character2` (`speaker_two`) is
non-null, taken in original document order, truncated to the first 3
(`conversation_enhancer.py` lines 42-48); the per-node enhancement loop
runs over exactly the positions of these candidates
(`candidateIdxs`), so no node outside this set is passed to it. -/
theorem claim_C1_candidate_selection (sb : StoryBranch) :
    dialogueNodes sb = (sb.nodes.filter hasCharacter2).take 3 ∧
    (candidateIdxs sb.nodes).map (fun i => sb.nodes.getD i dNode) = dialogueNodes sb ∧
    (dialogueNodes sb).length ≤ 3 ∧
    (∀ n ∈ dialogueNodes sb, hasCharacter2 n = true) := by
  refine ⟨dialogueNodes_eq_take sb, ?_, ?_, ?_⟩
  · rw [map_getD_candidateIdxs, dialogueNodes_eq_take]
  · rw [dialogueNodes_eq_take]
    have := List.length_take 3 (sb.nodes.filter hasCharacter2)
    omega
  · intro n hn
    rw [dialogueNodes_eq_take] at hn
    exact (List.mem_filter.mp (List.mem_of_mem_take hn)).2

/-- Witness for C1: on a concrete two-node document, the node with a
`character2` is selected and satisfies the selection predicate. -/
theorem claim_C1_candidate_selection_witness :
    nodeWithChar2 ∈ dialogueNodes { disease := "d", nodes := [nodeWithChar2, nodeNoChar2] } ∧
    hasCharacter2 nodeWithChar2 = true :=
  ⟨by decide,
   (claim_C1_candidate_selection
      { disease := "d", nodes := [nodeWithChar2, nodeNoChar2] }).2.2.2 nodeWithChar2 (by decide)⟩

/-- **C2.** Enrichment never adds or removes nodes, and every node at a
position outside the selected candidate set (null `character2`, or beyond
the cap of 3) is entirely unchanged after `enhance_conversations`,
whatever the model answers. -/
theorem claim_C2_frame (oracle : Nat → Option Json) (sb : StoryBranch) :
    (enhance_conversations oracle sb).branch.nodes.length = sb.nodes.length ∧
    ∀ j, j ∉ candidateIdxs sb.nodes →
      (enhance_conversations oracle sb).branch.nodes.getD j dNode
        = sb.nodes.getD j dNode := by
  have hinv0 : EnhanceInv sb.nodes sb.nodes := ⟨rfl, fun _ _ => rfl, fun _ => rfl⟩
  have h := enhanceLoop_inv sb.nodes oracle (candidateIdxs sb.nodes) 0 sb.nodes
    (fun _ hmem => hmem) hinv0
  exact ⟨h.1, h.2.1⟩

/-- Witness for C2: on a concrete document the non-candidate node (position
1, no `character2`) is untouched by an enhancement run. -/
theorem claim_C2_frame_witness :
    (1 ∉ candidateIdxs [nodeWithChar2, nodeNoChar2]) ∧
    (enhance_conversations (fun _ => none)
        { disease := "d", nodes := [nodeWithChar2, nodeNoChar2] }).branch.nodes.getD 1 dNode
      = ([nodeWithChar2, nodeNoChar2] : List Node).getD 1 dNode :=
  ⟨by decide,
   (claim_C2_frame (fun _ => none)
      { disease := "d", nodes := [nodeWithChar2, nodeNoChar2] }).2 1 (by decide)⟩

/-! ### Background / character validation (claim C5) -/

theorem setChat_background (n : Node) (jv : Json) :
    (setChat n jv).background = n.background := rfl

theorem setChat_character2 (n : Node) (jv : Json) :
    (setChat n jv).character2 = n.character2 := rfl

theorem normalizeBackground_valid (b : Option String) :
    ∃ s, normalizeBackground b = some s ∧ validBackgrounds.contains s = true := by
  cases b with
  | none => exact ⟨"sala", rfl, by decide⟩
  | some s =>
    by_cases h : validBackgrounds.contains s = true
    · have hsne : (s == "") = false := by
        cases hq : (s == "") with
        | false => rfl
        | true =>
          have hse : s = "" := by simpa using hq
          rw [hse] at h
          exact absurd h (by decide)
      refine ⟨s, ?_, h⟩
      unfold normalizeBackground
      rw [if_neg (by simp only [pyTruthyBackground, backgroundInEnum, hsne, h]; decide)]
    · have hf : validBackgrounds.contains s = false := by
        revert h; cases validBackgrounds.contains s <;> simp
      refine ⟨"sala", ?_, by decide⟩
      unfold normalizeBackground
      rw [if_pos (by simp only [backgroundInEnum, hf]; simp)]

theorem normalizeCharacter2_valid (c : Option Character) (hc : c.isSome = true) :
    ∃ d, normalizeCharacter2 c = some d ∧ validCharacter2Types.contains d.type = true := by
  cases c with
  | none => simp at hc
  | some ch =>
    by_cases h : validCharacter2Types.contains ch.type = true
    · refine ⟨ch, ?_, h⟩
      simp only [normalizeCharacter2]
      rw [if_neg (by simp only [h]; decide)]
    · have hf : validCharacter2Types.contains ch.type = false := by
        revert h; cases validCharacter2Types.contains ch.type <;> simp
      refine ⟨{ type := "familiare" }, ?_, by decide⟩
      simp only [normalizeCharacter2]
      rw [if_pos (by simp only [hf]; decide)]

/-- **C5.** For every node the enricher validates, after the validation
step (`conversation_enhancer.py` lines 56-69) the background belongs to
the closed background enumeration and the `character2` role belongs to the
closed character enumeration: a null or out-of-enumeration background is
overwritten with `"sala"`, an out-of-enumeration role is overwritten with
`"familiare"`, and already-valid values are left unchanged — recovery is
by substitution, never rejection.  The last conjunct ties the validation
to the pass itself: `enhanceStep` leaves exactly `normalizeNode`'s
background and `character2` at the selected position. -/
theorem claim_C5_validation (n : Node) :
    (∃ s, (normalizeNode n).background = some s ∧ validBackgrounds.contains s = true) ∧
    (n.character2.isSome = true →
      ∃ c, (normalizeNode n).character2 = some c ∧
        validCharacter2Types.contains c.type = true) ∧
    ((n.background = none ∨ ∀ s, n.background = some s → validBackgrounds.contains s = false) →
      (normalizeNode n).background = some "sala") ∧
    (∀ s, n.background = some s → validBackgrounds.contains s = true →
      (normalizeNode n).background = n.background) ∧
    (∀ c, n.character2 = some c → validCharacter2Types.contains c.type = false →
      (normalizeNode n).character2 = some ({ type := "familiare" } : Character)) ∧
    (∀ c, n.character2 = some c → validCharacter2Types.contains c.type = true →
      (normalizeNode n).character2 = n.character2) ∧
    (∀ (o : Option Json) (ns : List Node) (i : Nat), i < ns.length →
      ((enhanceStep o ns i).getD i dNode).background
          = (normalizeNode (ns.getD i dNode)).background ∧
      ((enhanceStep o ns i).getD i dNode).character2
          = (normalizeNode (ns.getD i dNode)).character2) := by
  refine ⟨normalizeBackground_valid n.background,
          fun hc => normalizeCharacter2_valid n.character2 hc, ?_, ?_, ?_, ?_, ?_⟩
  · intro hinvalid
    show normalizeBackground n.background = some "sala"
    rcases hinvalid with hnone | hbad
    · rw [hnone]
      rfl
    · cases hb : n.background with
      | none => rfl
      | some s =>
        have hf := hbad s hb
        unfold normalizeBackground
        rw [if_pos (by simp only [backgroundInEnum, hf]; simp)]
  · intro s hs hval
    show normalizeBackground n.background = n.background
    rw [hs]
    have hsne : (s == "") = false := by
      cases hq : (s == "") with
      | false => rfl
      | true =>
        have hse : s = "" := by simpa using hq
        rw [hse] at hval
        exact absurd hval (by decide)
    unfold normalizeBackground
    rw [if_neg (by simp only [pyTruthyBackground, backgroundInEnum, hsne, hval]; decide)]
  · intro c hc hbad
    show normalizeCharacter2 n.character2 = some { type := "familiare" }
    rw [hc]
    simp only [normalizeCharacter2]
    rw [if_pos (by simp only [hbad]; decide)]
  · intro c hc hval
    show normalizeCharacter2 n.character2 = n.character2
    rw [hc]
    simp only [normalizeCharacter2]
    rw [if_neg (by simp only [hval]; decide)]
  · intro o ns i hlen
    cases o with
    | none =>
      rw [enhanceStep_none ns i, getD_set_self ns i _ dNode hlen]
      exact ⟨rfl, rfl⟩
    | some jv =>
      cases hl : pyHasLen jv with
      | false =>
        rw [enhanceStep_some_noLen jv hl ns i, getD_set_self ns i _ dNode hlen]
        exact ⟨rfl, rfl⟩
      | true =>
        rw [enhanceStep_some_len jv hl ns i]
        by_cases hji : ns.findIdx (fun m => decide (m = ns.getD i dNode)) = i
        · rw [hji, getD_set_self _ i _ dNode (by rw [List.length_set]; exact hlen),
            setChat_background, setChat_character2, getD_set_self ns i _ dNode hlen]
          exact ⟨rfl, rfl⟩
        · rw [getD_set_ne _ _ i _ dNode hji, getD_set_self ns i _ dNode hlen]
          exact ⟨rfl, rfl⟩

/-- An out-of-enumeration node: invalid background and invalid
`character2` role, used as concrete input. -/
def nodeInvalid : Node :=
  { situation := "s", reasoning := "r", background := some "invalid_value",
    character2 := some ({ type := "invalid_role" } : Character), choices := [] }

/-- Witness for C5 at the invalid concrete node: both defaults are
substituted. -/
theorem claim_C5_validation_witness :
    validBackgrounds.contains "invalid_value" = false ∧
    validCharacter2Types.contains "invalid_role" = false ∧
    (normalizeNode nodeInvalid).background = some "sala" ∧
    (normalizeNode nodeInvalid).character2 = some ({ type := "familiare" } : Character) := by
  have h := claim_C5_validation nodeInvalid
  refine ⟨by decide, by decide, ?_, ?_⟩
  · refine h.2.2.1 (Or.inr ?_)
    intro s hs
    have hse : "invalid_value" = s := by
      simpa [nodeInvalid] using hs
    rw [← hse]
    decide
  · exact h.2.2.2.2.1 { type := "invalid_role" } rfl (by decide)

/-! ### Claim C10: the output artifact is always written -/

theorem charIdxs_all_none (ns : List Node) (h : ∀ n ∈ ns, n.character2 = none) :
    ∀ s, charIdxs ns s = [] := by
  induction ns with
  | nil => intro s; rfl
  | cons n rest ih =>
    intro s
    have hcons : charIdxs (n :: rest) s
        = if hasCharacter2 n = true then s :: charIdxs rest (s + 1)
          else charIdxs rest (s + 1) := rfl
    have hnone := h n (List.mem_cons_self n rest)
    have hc : hasCharacter2 n = false := by rw [hasCharacter2, hnone]; rfl
    rw [hcons, if_neg (by simp [hc])]
    exact ih (fun m hm => h m (List.mem_cons.mpr (Or.inr hm))) (s + 1)

/-- **C10.** `enhance_conversations` always serializes the full final
document to the output path exactly once and returns that same document;
when no node has a `character2` (empty candidate set) it makes no model
call and returns the document unchanged, but the artifact is still
written (`conversation_enhancer.py` lines 169-175 run unconditionally). -/
theorem claim_C10_always_writes (oracle : Nat → Option Json) (sb : StoryBranch) :
    (enhance_conversations oracle sb).written = [(enhance_conversations oracle sb).branch] ∧
    ((∀ n ∈ sb.nodes, n.character2 = none) →
      (enhance_conversations oracle sb).branch = sb ∧
      (enhance_conversations oracle sb).modelCalls = 0) := by
  refine ⟨rfl, ?_⟩
  intro h
  have hidx : candidateIdxs sb.nodes = [] := by
    unfold candidateIdxs
    rw [charIdxs_all_none sb.nodes h 0]
    rfl
  constructor
  · have hb : (enhance_conversations oracle sb).branch
        = { sb with nodes := (enhanceLoop oracle (candidateIdxs sb.nodes) 0 sb.nodes).1 } := rfl
    rw [hb, hidx]
    rfl
  · have hm : (enhance_conversations oracle sb).modelCalls
        = (enhanceLoop oracle (candidateIdxs sb.nodes) 0 sb.nodes).2 := rfl
    rw [hm, hidx]
    rfl

/-- Witness for C10 at a concrete document with no `character2` nodes. -/
theorem claim_C10_always_writes_witness :
    (∀ n ∈ ({ disease := "d", nodes := [nodeNoChar2] } : StoryBranch).nodes,
      n.character2 = none) ∧
    (enhance_conversations (fun _ => none)
        { disease := "d", nodes := [nodeNoChar2] }).branch
      = { disease := "d", nodes := [nodeNoChar2] } ∧
    (enhance_conversations (fun _ => none)
        { disease := "d", nodes := [nodeNoChar2] }).modelCalls = 0 :=
  ⟨by decide,
   ((claim_C10_always_writes (fun _ => none)
      { disease := "d", nodes := [nodeNoChar2] }).2 (by decide)).1,
   ((claim_C10_always_writes (fun _ => none)
      { disease := "d", nodes := [nodeNoChar2] }).2 (by decide)).2⟩

/-! ### Claim C3: the acceptance criterion for model dialogue output -/

/-- Modelled from the spec: the turn shape the enricher is *specified* to
accept — an object carrying a speaker discriminator (the `who` field of
`ChatMessage`) and a `text` field (spec §4.4 step d: "a structured list of
objects with `speaker` and `text`").  The code has no such check; this
definition exists only for comparison with the code's behaviour. -/
def specTurnObject : Json → Bool
  | .obj fields => fields.any (fun kv => kv.1 == "who") && fields.any (fun kv => kv.1 == "text")
  | _ => false

/-- Modelled from the spec: the full specified dialogue shape — a JSON
array of turn objects. -/
def specDialogueShape : Json → Bool
  | .arr elems => elems.all specTurnObject
  | _ => false

/-- One-candidate document used as concrete input. -/
def sbOneCandidate : StoryBranch := { disease := "d", nodes := [nodeWithChar2] }

/-- A decoded JSON value that *is* a list of objects but whose objects
carry neither a speaker nor a `text` field — sized (so `len()` succeeds),
yet not the specified dialogue shape. -/
def jsonWrongShape : Json := Json.arr [Json.obj [("foo", Json.num 1)]]

/-- **C3 is false on the code:** the model output decodes (via
`json.loads`) as a list of objects that carry neither a speaker nor a
`text` field.  It is not the specified list-of-turns shape, but it has a
`len()`, so the success log at `conversation_enhancer.py` line 158 passes
and the unvalidated assignment at line 161 silently stores the raw value
into the node's dialogue instead of classifying it as a parse failure. -/
theorem claim_C3_counterexample :
    specDialogueShape jsonWrongShape = false ∧
    pyHasLen jsonWrongShape = true ∧
    ((enhance_conversations (fun _ => some jsonWrongShape) sbOneCandidate).branch.nodes.getD 0
        dNode).chat = some (ChatValue.rawJson jsonWrongShape) :=
  ⟨rfl, rfl, rfl⟩

/-- **C3 (amended).** The enricher's actual acceptance boundary for a
selected node's model output is "decodes as JSON to a value with a
`len()`" — a JSON array, object or string: a `json.loads` failure stores
nothing; a decoded number, boolean or null raises `TypeError` in the
success log's `len(enhanced_chat)` (line 158) inside the same `try` and
also stores nothing; any sized decoded value is stored raw — with no check
that it is a list of objects carrying speaker and `text` fields — into the
dialogue of the node found by the `list.index` lookup. -/
theorem claim_C3_acceptance_boundary (ns : List Node) (i : Nat) (jv : Json)
    (h : i < ns.length) :
    (∀ j, ((enhanceStep none ns i).getD j dNode).chat = (ns.getD j dNode).chat) ∧
    (pyHasLen jv = false →
      ∀ j, ((enhanceStep (some jv) ns i).getD j dNode).chat = (ns.getD j dNode).chat) ∧
    (pyHasLen jv = true →
      ∃ j, j < ns.length ∧
        ((enhanceStep (some jv) ns i).getD j dNode).chat = some (ChatValue.rawJson jv)) := by
  have hpres : ∀ j, ((ns.set i (normalizeNode (ns.getD i dNode))).getD j dNode).chat
      = (ns.getD j dNode).chat := by
    intro j
    by_cases hji : i = j
    · subst hji
      rw [getD_set_self ns i _ dNode h]
      exact normalizeNode_chat _
    · rw [getD_set_ne ns i j _ dNode hji]
  refine ⟨?_, ?_, ?_⟩
  · intro j
    rw [enhanceStep_none ns i]
    exact hpres j
  · intro hl j
    rw [enhanceStep_some_noLen jv hl ns i]
    exact hpres j
  · intro hl
    refine ⟨ns.findIdx (fun m => decide (m = ns.getD i dNode)), ?_, ?_⟩
    · exact lt_of_le_of_lt (findIdx_le_of_getD _ ns i dNode h (by simp)) h
    · rw [enhanceStep_some_len jv hl ns i,
        getD_set_self _ _ _ dNode
          (by rw [List.length_set]
              exact lt_of_le_of_lt (findIdx_le_of_getD _ ns i dNode h (by simp)) h)]
      rfl

/-- Witness for the amended C3 at a concrete one-node list: the JSON
number 42 decodes but has no `len()`, so the node's dialogue is left
unchanged. -/
theorem claim_C3_acceptance_boundary_witness :
    0 < ([nodeWithChar2] : List Node).length ∧
    pyHasLen (Json.num 42) = false ∧
    ((enhanceStep (some (Json.num 42)) [nodeWithChar2] 0).getD 0 dNode).chat
        = (([nodeWithChar2] : List Node).getD 0 dNode).chat :=
  ⟨by decide, rfl,
   (claim_C3_acceptance_boundary [nodeWithChar2] 0 (Json.num 42) (by decide)).2.1 rfl 0⟩

/-! ### Claim C4: parse failure is supposed to leave the node's dialogue alone -/

/-- A well-shaped 4-turn dialogue as decoded JSON. -/
def sampleDialogue : Json :=
  Json.arr
    [Json.obj [("who", Json.num 2), ("text", Json.str "a")],
     Json.obj [("who", Json.num 1), ("text", Json.str "b")],
     Json.obj [("who", Json.num 2), ("text", Json.str "c")],
     Json.obj [("who", Json.num 1), ("text", Json.str "d")]]

/-- A document with two value-identical candidate nodes. -/
def sbDuplicate : StoryBranch := { disease := "d", nodes := [nodeWithChar2, nodeWithChar2] }

/-- Model outcomes: the first candidate's output is unparseable, the
second decodes to a perfectly well-shaped dialogue. -/
def oracleC4 : Nat → Option Json := fun k => if k = 0 then none else some sampleDialogue

/-- **C4 fails on the code (defect).**  With two value-identical candidate
nodes, when node 0's model output fails `json.loads` and node 1's output
decodes to a well-shaped dialogue, the write for node 1 goes through
`story_branch.nodes.index(node)` (`conversation_enhancer.py` line 53),
which returns the position of the *first* `==`-equal node — node 0.  So
node 0's dialogue changes from `None` to node 1's dialogue even though its
own output failed to parse, and node 1 (whose output succeeded) keeps
`None` — contradicting the claim, the spec (§4.4 step d, §8), and the
code's own comment "get the node index in the original story branch". -/
theorem claim_C4_bug :
    (sbDuplicate.nodes.getD 0 dNode).chat = none ∧
    oracleC4 0 = none ∧
    specDialogueShape sampleDialogue = true ∧
    ((enhance_conversations oracleC4 sbDuplicate).branch.nodes.getD 0 dNode).chat
        = some (ChatValue.rawJson sampleDialogue) ∧
    ((enhance_conversations oracleC4 sbDuplicate).branch.nodes.getD 1 dNode).chat = none :=
  ⟨rfl, rfl, rfl, rfl, rfl⟩

/-! ### Claims C6-C9: the generation pipeline -/

/-- Formatter-stage oracle that always fails, used as concrete input. -/
def failFormatter : AgentConfig → String → String → String → StageResult String :=
  fun _ _ _ _ => .err "model fault"

/-- Generator-stage oracle that always fails, used as concrete input. -/
def failGenerator : AgentConfig → Nat → String → String → StageResult StoryBranch :=
  fun _ _ _ _ => .err "model fault"

/-- Formatter-stage oracle that returns cleaned text, used as concrete
input. -/
def goodFormatter : AgentConfig → String → String → String → StageResult String :=
  fun _ _ _ _ => .ok "cleaned"

/-- A schema-valid generator output violating every prompt-level count
contract: one node (whatever was requested), one choice instead of two,
and the schema-default score 0. -/
def badBranch : StoryBranch :=
  { disease := "",
    nodes := [{ situation := "s", reasoning := "r",
                choices := [{ text := "t", outcome := "o", impact := "i", score := 0 }] }] }

/-- Generator-stage oracle returning `badBranch`, used as concrete input. -/
def badGenerator : AgentConfig → Nat → String → String → StageResult StoryBranch :=
  fun _ _ _ _ => .ok badBranch

/-- A well-formed one-node generator output: two choices scored +1 and -1. -/
def goodBranch : StoryBranch :=
  { disease := "",
    nodes := [{ situation := "s", reasoning := "r",
                choices := [{ text := "a", outcome := "o", impact := "i", score := 1 },
                            { text := "b", outcome := "o2", impact := "i2", score := -1 }] }] }

/-- Generator-stage oracle returning `goodBranch`, used as concrete input. -/
def goodGenerator : AgentConfig → Nat → String → String → StageResult StoryBranch :=
  fun _ _ _ _ => .ok goodBranch

/-- Default choice used with `List.getD`. -/
def dChoice : Choice := { text := "", outcome := "", impact := "" }

theorem create_eq_of_formatter_err
    (rf : AgentConfig → String → String → String → StageResult String)
    (rg : AgentConfig → Nat → String → String → StageResult StoryBranch)
    (model text filename disease language : String) (n : Nat) (e : String)
    (hf : rf (textFormatterAgent model) disease language text = StageResult.err e) :
    create_story_branch_from_text rf rg model text filename disease language n
      = ((none, none), [textFormatterAgent model]) := by
  unfold create_story_branch_from_text
  dsimp only
  rw [hf]

theorem create_eq_of_generator_err
    (rf : AgentConfig → String → String → String → StageResult String)
    (rg : AgentConfig → Nat → String → String → StageResult StoryBranch)
    (model text filename disease language : String) (n : Nat) (summary e : String)
    (hf : rf (textFormatterAgent model) disease language text = StageResult.ok summary)
    (hg : rg storyGeneratorAgent n disease summary = StageResult.err e) :
    create_story_branch_from_text rf rg model text filename disease language n
      = ((none, none), [textFormatterAgent model, storyGeneratorAgent]) := by
  unfold create_story_branch_from_text
  dsimp only
  rw [hf]
  dsimp only
  rw [hg]

theorem create_eq_of_ok
    (rf : AgentConfig → String → String → String → StageResult String)
    (rg : AgentConfig → Nat → String → String → StageResult StoryBranch)
    (model text filename disease language : String) (n : Nat) (summary : String)
    (sb : StoryBranch)
    (hf : rf (textFormatterAgent model) disease language text = StageResult.ok summary)
    (hg : rg storyGeneratorAgent n disease summary = StageResult.ok sb) :
    create_story_branch_from_text rf rg model text filename disease language n
      = ((some { sb with disease := disease }, some (pyReplace filename ".pdf" "")),
         [textFormatterAgent model, storyGeneratorAgent]) := by
  unfold create_story_branch_from_text
  dsimp only
  rw [hf]
  dsimp only
  rw [hg]

/-- **C6.** If either the formatter stage or the generator stage of
`create_story_branch_from_text` fails (model/transport fault or
schema-coercion fault), the call returns the failure marker `(None, None)`
— the `try/except Exception` of `story_branch_generator.py` lines 39 and
153-158 logs the fault and converts it; the embedding is a total function,
so no fault propagates uncontrolled. -/
theorem claim_C6_failure_marker
    (runFormatter : AgentConfig → String → String → String → StageResult String)
    (runGenerator : AgentConfig → Nat → String → String → StageResult StoryBranch)
    (model text filename disease language : String) (how_many_nodes : Nat)
    (hfail :
      (∃ e, runFormatter (textFormatterAgent model) disease language text
          = StageResult.err e) ∨
      (∀ summary, runFormatter (textFormatterAgent model) disease language text
          = StageResult.ok summary →
        ∃ e, runGenerator storyGeneratorAgent how_many_nodes disease summary
          = StageResult.err e)) :
    (create_story_branch_from_text runFormatter runGenerator model text filename disease
      language how_many_nodes).1 = (none, none) := by
  rcases hfail with ⟨e, he⟩ | hgen
  · rw [create_eq_of_formatter_err _ _ _ _ _ _ _ _ _ he]
  · cases hf : runFormatter (textFormatterAgent model) disease language text with
    | err e => rw [create_eq_of_formatter_err _ _ _ _ _ _ _ _ _ hf]
    | ok summary =>
      obtain ⟨e, he⟩ := hgen summary hf
      rw [create_eq_of_generator_err _ _ _ _ _ _ _ _ _ _ hf he]

/-- Witness for C6: concrete failing stages yield `(None, None)`. -/
theorem claim_C6_failure_marker_witness :
    (∃ e, failFormatter (textFormatterAgent "m") "dis" "Italian" "t" = StageResult.err e) ∧
    (create_story_branch_from_text failFormatter failGenerator "m" "t" "f.pdf" "dis"
      "Italian" 1).1 = (none, none) :=
  ⟨⟨"model fault", rfl⟩,
   claim_C6_failure_marker failFormatter failGenerator "m" "t" "f.pdf" "dis" "Italian" 1
     (Or.inl ⟨"model fault", rfl⟩)⟩

/-- The node-count / choice-count / score-polarity property claimed in
spec §8 for produced documents, as a decidable predicate. -/
def wellFormedDoc (n : Nat) (d : StoryBranch) : Bool :=
  d.nodes.length == n &&
  d.nodes.all (fun node =>
    node.choices.length == 2 &&
    node.choices.all (fun c => c.score == 1 || c.score == -1))

/-- **C7 is false on the code:** nothing in the pipeline or the schema
enforces the requested node count, the two-choice contract, or the ±1
score polarity (`Choice.score` even defaults to 0, `models.py` line 20).
With node count 2 requested, a schema-valid model output with one node,
one choice and score 0 is returned as a successful document as-is. -/
theorem claim_C7_counterexample :
    (create_story_branch_from_text goodFormatter badGenerator "m" "t" "f.pdf" "dis" "Italian"
        2).1.1 = some { badBranch with disease := "dis" } ∧
    ({ badBranch with disease := "dis" } : StoryBranch).nodes.length = 1 ∧
    (1 : Nat) ≠ 2 ∧
    (({ badBranch with disease := "dis" } : StoryBranch).nodes.getD 0 dNode).choices.length
        = 1 ∧
    ((({ badBranch with disease := "dis" } : StoryBranch).nodes.getD 0 dNode).choices.getD 0
        dChoice).score = 0 :=
  ⟨rfl, rfl, by decide, rfl, rfl⟩

/-- **C7 (amended).** A successfully produced document is exactly the
generator stage's schema-validated output with the disease label
overwritten: its node list equals the model output's node list, so the
requested node count, the two-choice contract and the ±1 scores hold for
the produced document exactly when the model output satisfies them — the
pipeline preserves these properties but does not mechanically enforce
them. -/
theorem claim_C7_pipeline_preserves
    (runFormatter : AgentConfig → String → String → String → StageResult String)
    (runGenerator : AgentConfig → Nat → String → String → StageResult StoryBranch)
    (model text filename disease language : String) (n : Nat)
    (d : StoryBranch) (name : Option String)
    (hout : (create_story_branch_from_text runFormatter runGenerator model text filename
      disease language n).1 = (some d, name)) :
    ∃ summary sb,
      runFormatter (textFormatterAgent model) disease language text
        = StageResult.ok summary ∧
      runGenerator storyGeneratorAgent n disease summary = StageResult.ok sb ∧
      d = { sb with disease := disease } ∧ d.nodes = sb.nodes ∧
      (wellFormedDoc n sb = true → wellFormedDoc n d = true) := by
  cases hf : runFormatter (textFormatterAgent model) disease language text with
  | err e =>
    rw [create_eq_of_formatter_err _ _ _ _ _ _ _ _ _ hf] at hout
    exact absurd hout (by simp)
  | ok summary =>
    cases hg : runGenerator storyGeneratorAgent n disease summary with
    | err e =>
      rw [create_eq_of_generator_err _ _ _ _ _ _ _ _ _ _ hf hg] at hout
      exact absurd hout (by simp)
    | ok sb =>
      rw [create_eq_of_ok _ _ _ _ _ _ _ _ _ _ hf hg] at hout
      have h1 : (some { sb with disease := disease } : Option StoryBranch) = some d :=
        congrArg Prod.fst hout
      have h2 : { sb with disease := disease } = d := Option.some.inj h1
      refine ⟨summary, sb, rfl, hg, h2.symm, ?_, ?_⟩
      · rw [← h2]
      · intro hwf
        rw [← h2]
        exact hwf

/-- Witness for the amended C7 at concrete successful stages. -/
theorem claim_C7_pipeline_preserves_witness :
    (create_story_branch_from_text goodFormatter goodGenerator "m" "t" "f.pdf" "dis" "Italian"
        1).1 = (some { goodBranch with disease := "dis" }, some "f") ∧
    (∃ summary sb,
      goodFormatter (textFormatterAgent "m") "dis" "Italian" "t" = StageResult.ok summary ∧
      goodGenerator storyGeneratorAgent 1 "dis" summary = StageResult.ok sb ∧
      ({ goodBranch with disease := "dis" } : StoryBranch) = { sb with disease := "dis" } ∧
      ({ goodBranch with disease := "dis" } : StoryBranch).nodes = sb.nodes ∧
      (wellFormedDoc 1 sb = true →
        wellFormedDoc 1 { goodBranch with disease := "dis" } = true)) :=
  ⟨rfl,
   claim_C7_pipeline_preserves goodFormatter goodGenerator "m" "t" "f.pdf" "dis" "Italian" 1
     { goodBranch with disease := "dis" } (some "f") rfl⟩

/-- **C8 fails on the code (defect).**  The derived name is computed by
`filename.replace('.pdf', '')` (`story_branch_generator.py` line 41, under
the comment "remove .pdf extension from filename"), which removes *every*
occurrence of ".pdf", not just the trailing extension: for the source name
"story.pdf.pdf" the pipeline derives "story", while stripping only the
extension (as `os.path.splitext` does on the URL path,
`utils/utils.py` line 138) gives "story.pdf". -/
theorem claim_C8_bug :
    pyReplace "story.pdf.pdf" ".pdf" "" = "story" ∧
    splitextStem "story.pdf.pdf" = "story.pdf" ∧
    (create_story_branch_from_text goodFormatter goodGenerator "m" "t" "story.pdf.pdf" "dis"
        "Italian" 1).1.2 = some "story" ∧
    "story" ≠ "story.pdf" :=
  ⟨rfl, rfl, rfl, by decide⟩

/-- **C9.** Whatever model identifier the pipeline is configured with,
every agent built by `create_story_branch_from_text` is either the text
formatter (which carries the configured model) or the story branch
generator agent, whose model is the hard-coded `"gpt-4.1"`
(`story_branch_generator.py` line 125); the conversation enhancer agent
(`conversation_enhancer.py` line 105) also carries the configured model.
Hence the structured-generation stage's model request never depends on
the user's model selection. -/
theorem claim_C9_generator_model_fixed (m : String) :
    storyGeneratorAgent.model = "gpt-4.1" ∧
    (textFormatterAgent m).model = m ∧
    (conversationEnhancerAgent m).model = m ∧
    (∀ (runFormatter : AgentConfig → String → String → String → StageResult String)
       (runGenerator : AgentConfig → Nat → String → String → StageResult StoryBranch)
       (text filename disease language : String) (n : Nat) (g : AgentConfig),
       g ∈ (create_story_branch_from_text runFormatter runGenerator m text filename disease
          language n).2 →
       g = textFormatterAgent m ∨ (g = storyGeneratorAgent ∧ g.model = "gpt-4.1")) := by
  refine ⟨rfl, rfl, rfl, ?_⟩
  intro runFormatter runGenerator text filename disease language n g hg
  cases hf : runFormatter (textFormatterAgent m) disease language text with
  | err e =>
    rw [create_eq_of_formatter_err _ _ _ _ _ _ _ _ _ hf] at hg
    have hg2 : g ∈ [textFormatterAgent m] := hg
    rcases List.mem_cons.mp hg2 with h | h
    · exact Or.inl h
    · simp at h
  | ok summary =>
    cases hgen : runGenerator storyGeneratorAgent n disease summary with
    | err e =>
      rw [create_eq_of_generator_err _ _ _ _ _ _ _ _ _ _ hf hgen] at hg
      have hg2 : g ∈ [textFormatterAgent m, storyGeneratorAgent] := hg
      rcases List.mem_cons.mp hg2 with h | h
      · exact Or.inl h
      · rcases List.mem_cons.mp h with h2 | h2
        · exact Or.inr ⟨h2, by rw [h2]; rfl⟩

        · simp at h2
    | ok sb =>
      rw [create_eq_of_ok _ _ _ _ _ _ _ _ _ _ hf hgen] at hg
      have hg2 : g ∈ [textFormatterAgent m, storyGeneratorAgent] := hg
      rcases List.mem_cons.mp hg2 with h | h
      · exact Or.inl h
      · rcases List.mem_cons.mp h with h2 | h2
        · exact Or.inr ⟨h2, by rw [h2]; rfl⟩

        · simp at h2

/-- Witness for C9: in a concrete successful run, the generator agent is
in the trace and its model is "gpt-4.1". -/
theorem claim_C9_generator_model_fixed_witness :
    storyGeneratorAgent ∈ (create_story_branch_from_text goodFormatter goodGenerator "m" "t"
        "f.pdf" "dis" "Italian" 1).2 ∧
    (storyGeneratorAgent = textFormatterAgent "m" ∨
      (storyGeneratorAgent = storyGeneratorAgent ∧ storyGeneratorAgent.model = "gpt-4.1")) :=
  ⟨by decide,
   (claim_C9_generator_model_fixed "m").2.2.2 goodFormatter goodGenerator "t" "f.pdf" "dis"
     "Italian" 1 storyGeneratorAgent (by decide)⟩

end StoryBranching

